import Mathlib

/-!
Verification of the `shufflr.sources` data-access layer: a shallow embedding
of `File` (the persistent keyed store), `Cache` (bounded in-memory mirror),
`LabelBatch` and `PairedBatch`, with theorems about their invalidation
protocol, table consistency, cache refresh behaviour and the pairing pass.

The companion modules `keyutils`, `core`, `utils` and `ReservedKeys` are not
part of the sources; the few facts needed from them are modelled from the
spec and flagged as such in doc comments.
-/

set_option autoImplicit false

namespace Shufflr

/-- Modelled from the spec: the reserved key name `ReservedKeys.KEY_MANIFEST`
(the module defining reserved names is not among the sources). -/
def KEY_MANIFEST : String := "__key_manifest__"

/-- Modelled from the spec: the reserved key name `ReservedKeys.LABEL_ENUM`. -/
def LABEL_ENUM : String := "__label_enum__"

/-- Modelled from the spec: the reserved key name `ReservedKeys.INDEX_TABLE`. -/
def INDEX_TABLE : String := "__index_table__"

/-- The three reserved table names, "exclusively used for derived tables". -/
def reservedNames : List String := [KEY_MANIFEST, LABEL_ENUM, INDEX_TABLE]

/-- Modelled from the spec: `keyutils.cleanse` normalizes a path-like key
into "normalized form"; the spec gives no further detail on the
normalization, so it is the identity here. -/
def cleanse (k : String) : String := k

/-- Modelled from the spec: `keyutils.is_keylike` — "a string satisfying the
store's naming convention for addressable items (excludes reserved table
names)": nonempty and not reserved. -/
def is_keylike (k : String) : Bool := !(k == "") && !(reservedNames.contains k)

/-- Label data of one item, as read off `core.Dataset`: a `Sample` carries one
scalar string label per label key, a `Sequence` one ordered list of labels per
label key (one label per element of the value's leading axis). -/
inductive ItemLabels
  | Sample (m : List (String × String))
  | Sequence (m : List (String × List String))
deriving DecidableEq

/-- An item: a numeric value array plus its label mapping (the kind tag is the
constructor of `ItemLabels`). -/
structure Item where
  value : List Int
  labels : ItemLabels
deriving DecidableEq

/-- Failure modes of the layer (`assert` failures map to `NotFound` or
`InvalidKey`, `StopIteration` from an exhausted source to `SourceExhausted`,
an h5py name collision to `KeyExists`, `choice` on an empty list of keys to
`EmptyChoice`). -/
inductive Err
  | NotFound
  | InvalidKey
  | KeyExists
  | SourceExhausted
  | EmptyChoice
deriving DecidableEq

/-- Decidable equality of `Except` results, so that concrete runs of the
operations can be checked by evaluation. -/
instance instDecEqExcept {ε α : Type} [DecidableEq ε] [DecidableEq α] :
    DecidableEq (Except ε α) := fun x y =>
  match x, y with
  | .ok a, .ok b =>
    if h : a = b then .isTrue (by rw [h])
    else .isFalse (by intro hh; cases hh; exact h rfl)
  | .ok _, .error _ => .isFalse (by intro hh; cases hh)
  | .error _, .ok _ => .isFalse (by intro hh; cases hh)
  | .error e, .error f =>
    if h : e = f then .isTrue (by rw [h])
    else .isFalse (by intro hh; cases hh; exact h rfl)

/-- One row of the index table: `(key_index, [subindex,] label_code)`. -/
structure IdxRow where
  keyIdx : Nat
  subIdx : Option Nat
  code : Nat
deriving DecidableEq

/-- Look up `lab` in the label enumeration, assigning the next dense code
(`len(self._label_enum)`) on a miss, as in the `create_tables` scan. -/
def enumCode (e : List (String × Nat)) (lab : String) : List (String × Nat) × Nat :=
  match e.find? (fun p => p.1 == lab) with
  | some p => (e, p.2)
  | none => (e ++ [(lab, e.length)], e.length)

/-- The labels visited for one item during a table scan, in visit order: for a
`Sample`, each label once with no subindex; for a `Sequence`, each label of
each label sequence with its subindex (`enumerate(label_seq)`). -/
def labelCells : ItemLabels → List (Option Nat × String)
  | .Sample m => m.map (fun p => (none, p.2))
  | .Sequence m => m.flatMap (fun p => p.2.enum.map (fun q => (some q.1, q.2)))

/-- Scan the label cells of the item with key index `ki`, threading the label
enumeration and emitting one index row per cell. -/
def scanCells (e : List (String × Nat)) (ki : Nat) :
    List (Option Nat × String) → List (String × Nat) × List IdxRow
  | [] => (e, [])
  | (si, lab) :: rest =>
    let p := enumCode e lab
    let q := scanCells p.1 ki rest
    (q.1, ⟨ki, si, p.2⟩ :: q.2)

/-- The full-store scan of `create_tables`: visit entries in storage order,
skip non-key-like names, append key-like keys to the manifest and emit their
index rows. `keyutils.key_to_index` is not among the sources; modelled from
the spec ("every key_index resolves to a key in KeyManifest") as the key's
position in the manifest built by the same scan, which is the running count
`ki` of key-like entries already visited. -/
def scanItems (e : List (String × Nat)) (ki : Nat) :
    List (String × Item) → List String × List (String × Nat) × List IdxRow
  | [] => ([], e, [])
  | (k, it) :: rest =>
    if is_keylike k then
      let p := scanCells e ki (labelCells it.labels)
      let q := scanItems p.1 (ki + 1) rest
      (cleanse k :: q.1, q.2.1, p.2 ++ q.2.2)
    else scanItems e ki rest

/-- State of a `File` persistent store: the key-like item entries in storage
order, the three persistent reserved entries (`tKeys`/`tEnum`/`tIndex`, absent
= `none`), and the three local caches (`self._keys`, `self._label_enum`,
`self._index_table`; the empty list / `none` marks a cleared cache, as in
`_clear_local_tables`). -/
structure Store where
  items : List (String × Item)
  tKeys : Option (List String) := none
  tEnum : Option (List (String × Nat)) := none
  tIndex : Option (List IdxRow) := none
  cKeys : List String := []
  cEnum : List (String × Nat) := []
  cIndex : Option (List IdxRow) := none
deriving DecidableEq

/-- `File._clear_local_tables`. -/
def Store.clearLocal (s : Store) : Store :=
  { s with cKeys := [], cEnum := [], cIndex := none }

/-- `File._clear_persistent_tables`: clear the local tables and delete the
three reserved entries. -/
def Store.clearPersistent (s : Store) : Store :=
  { s.clearLocal with tKeys := none, tEnum := none, tIndex := none }

/-- h5py containment `key in self`: item entries and any persistent reserved
entry currently present on disk. -/
def Store.contains (s : Store) (k : String) : Bool :=
  s.items.any (fun p => p.1 == k)
    || (k == KEY_MANIFEST && s.tKeys.isSome)
    || (k == LABEL_ENUM && s.tEnum.isSome)
    || (k == INDEX_TABLE && s.tIndex.isSome)

/-- The attribute-filtering loop of `File.add`: numeric and array values are
always written, any other value only when truthy (`elif v:`). Label values
are attributes (spec, External Interfaces; `utils.partition_attrs` and `core`
are not among the sources): a scalar string label is truthy iff nonempty, and
a label sequence, modelled with Python list truthiness, iff nonempty. -/
def storeLabels : ItemLabels → ItemLabels
  | .Sample m => .Sample (m.filter (fun p => !(p.2 == "")))
  | .Sequence m => .Sequence (m.filter (fun p => !p.2.isEmpty))

/-- The item as persisted by `File.add`: the value array is written as-is, the
attributes pass through the truthiness filter. -/
def storeItem (it : Item) : Item := { it with labels := storeLabels it.labels }

/-- What `File.get` hands back: `core.Factory` applied to the fetched entry.
For an item entry this reconstructs the Item; for a present reserved entry the
containment assert passes and the reserved dataset itself is fetched (only the
NotFound check is decided by the sources; `Factory` is modelled from the spec
as the Item reconstruction). -/
inductive Fetched
  | item (it : Item)
  | table (name : String)
deriving DecidableEq

/-- `File.get`: asserts `key in self` (NotFound), then returns the wrapped
entry. -/
def Store.get (s : Store) (key : String) : Except Err Fetched :=
  if !s.contains key then .error .NotFound
  else
    match s.items.find? (fun p => p.1 == key) with
    | some p => .ok (.item p.2)
    | none => .ok (.table key)

/-- `File.add`: cleanse the key, assert it is key-like (InvalidKey), clear the
persistent tables, then create the dataset (an existing entry under the same
name makes `create_dataset` fail) and write the filtered attributes. -/
def Store.add (s : Store) (key : String) (data : Item) : Except Err Store :=
  let key := cleanse key
  if !is_keylike key then .error .InvalidKey
  else
    let s1 := s.clearPersistent
    if s1.items.any (fun p => p.1 == key) then .error .KeyExists
    else .ok { s1 with items := s1.items ++ [(key, storeItem data)] }

/-- `File.remove`: asserts containment (NotFound), deletes the entry, then
clears the persistent tables. -/
def Store.remove (s : Store) (key : String) : Except Err Store :=
  if !s.contains key then .error .NotFound
  else
    let s1 :=
      if s.items.any (fun p => p.1 == key) then
        { s with items := s.items.filter (fun p => !(p.1 == key)) }
      else if key == KEY_MANIFEST then { s with tKeys := none }
      else if key == LABEL_ENUM then { s with tEnum := none }
      else { s with tIndex := none }
    .ok s1.clearPersistent

/-- `File.create_tables`: clear everything, run the full scan, then write all
three reserved entries and cache all three locally. -/
def Store.create_tables (s : Store) : Store :=
  let s1 := s.clearPersistent
  let r := scanItems [] 0 s1.items
  { s1 with
    tKeys := some r.1, tEnum := some r.2.1, tIndex := some r.2.2,
    cKeys := r.1, cEnum := r.2.1, cIndex := some r.2.2 }

/-- `File.keys`: rebuild if the persistent manifest is absent, fill the local
cache from it if empty, return the cached list. -/
def Store.keysRead (s : Store) : List String × Store :=
  let s1 := if s.tKeys.isSome then s else s.create_tables
  let m := s1.tKeys.getD []
  let ck := if s1.cKeys.isEmpty then m else s1.cKeys
  (ck, { s1 with cKeys := ck })

/-- `File.label_enum`: rebuild if the persistent enumeration is absent, fill
the local cache from it if empty, return the cached mapping. -/
def Store.label_enumRead (s : Store) : List (String × Nat) × Store :=
  let s1 := if s.tEnum.isSome then s else s.create_tables
  let m := s1.tEnum.getD []
  let ce := if s1.cEnum.isEmpty then m else s1.cEnum
  (ce, { s1 with cEnum := ce })

/-- `File.index_table`: rebuild if the persistent index table is absent, fill
the local cache from it if `None`, return the cached table. -/
def Store.index_tableRead (s : Store) : List IdxRow × Store :=
  let s1 := if s.tIndex.isSome then s else s.create_tables
  let m := s1.tIndex.getD []
  let ci := match s1.cIndex with
    | some x => x
    | none => m
  (ci, { s1 with cIndex := some ci })

/-- All three derived tables invalidated: persistent entries absent and local
caches cleared — the state `_clear_persistent_tables` leaves behind. -/
def invalidated (s : Store) : Bool :=
  s.tKeys.isNone && s.tEnum.isNone && s.tIndex.isNone
    && s.cKeys.isEmpty && s.cEnum.isEmpty && s.cIndex.isNone

/-- Mutual consistency of the three persistent tables with the item set: all
present, the manifest lists exactly the key-like item keys, every index row's
label code appears in the label enumeration and every key index resolves to a
position in the manifest. -/
def tablesConsistent (s : Store) : Bool :=
  match s.tKeys, s.tEnum, s.tIndex with
  | some K, some E, some I =>
    (K == (s.items.map Prod.fst).filter is_keylike)
      && I.all (fun row =>
           (E.map Prod.snd).contains row.code && decide (row.keyIdx < K.length))
  | _, _, _ => false

/-- Python `dict` insertion `self[k] = v` on an insertion-ordered association
list: replace in place if the key is present, else append. (`OrderedDict`
updates behave identically: position kept, value replaced.) -/
def dictInsert (m : List (String × Item)) (k : String) (v : Item) :
    List (String × Item) :=
  if m.any (fun p => p.1 == k) then
    m.map (fun p => if p.1 == k then (k, v) else p)
  else m ++ [(k, v)]

/-- One draw of `np.random.binomial(1, p)`, with the underlying uniform
variate `r` in `[0, 1)` made explicit: the draw succeeds iff `r < p`. -/
def bernoulli (p r : ℚ) : Bool := r < p

/-- State of a `Cache`: the resident mapping (a `dict` in insertion order),
`self._refresh_prob`, the remaining pulls of the backing Source (`next()`
takes the head; an empty stream is an exhausted source), the source's declared
`num_items`, and the local tables (`_keys`, `_label_enum`, `_index_table`;
empty = cleared, as `_clear_tables` leaves them). -/
structure Cache where
  store : List (String × Item)
  refresh_prob : ℚ
  stream : List (String × Item)
  num_items : Nat
  cKeys : List String := []
  cEnum : List (String × Nat) := []
  cIndex : List IdxRow := []
deriving DecidableEq

/-- `Cache._clear_tables`. -/
def Cache.clear_tables (c : Cache) : Cache :=
  { c with cKeys := [], cEnum := [], cIndex := [] }

/-- `Cache.load`: pull the next `n` pairs from the source and insert them; an
exhausted source fails the whole call. It does not touch the local tables
(the trailing `create_tables` call in the source is commented out). -/
def Cache.load : Cache → Nat → Except Err Cache
  | c, 0 => .ok c
  | c, n + 1 =>
    match c.stream with
    | [] => .error .SourceExhausted
    | (k, v) :: rest =>
      Cache.load { c with store := dictInsert c.store k v, stream := rest } n

/-- `Cache.__init__`: record `self._refresh_prob` from the argument, then — if
the dataset fits — clamp the local `cache_size` variable (the accompanying
assignment of `0` to the local `refresh_prob` variable happens after
`self._refresh_prob` was already set and is never read again), load
`cache_size` items, and clear the local tables. -/
def Cache.init (stream : List (String × Item)) (num_items cache_size : Nat)
    (refresh_prob : ℚ) : Except Err Cache :=
  let c : Cache :=
    { store := [], refresh_prob := refresh_prob, stream := stream,
      num_items := num_items }
  let size := if num_items < cache_size then num_items else cache_size
  (c.load size).map Cache.clear_tables

/-- `Cache.create_tables`: clear the local tables, then scan the resident
items in iteration order (it rebuilds only the label enumeration and index
table; `_keys` is never repopulated by this scan). -/
def Cache.create_tables (c : Cache) : Cache :=
  let c1 := c.clear_tables
  let r := scanItems [] 0 c1.store
  { c1 with cEnum := r.2.1, cIndex := r.2.2 }

/-- `Cache.label_enum`: rebuild if the local enumeration is empty, then return
it (a copy) together with the updated cache. -/
def Cache.label_enum (c : Cache) : List (String × Nat) × Cache :=
  let c1 := if c.cEnum.isEmpty then c.create_tables else c
  (c1.cEnum, c1)

/-- `Cache.index_table`: rebuild if the local index table is empty, then
return it together with the updated cache. -/
def Cache.index_table (c : Cache) : List IdxRow × Cache :=
  let c1 := if c.cIndex.isEmpty then c.create_tables else c
  (c1.cIndex, c1)

/-- `Cache.remove`: `del self[key]` (KeyError, i.e. NotFound, when absent),
then clear the local tables. -/
def Cache.remove (c : Cache) (key : String) : Except Err Cache :=
  if !c.store.any (fun p => p.1 == key) then .error .NotFound
  else
    .ok (Cache.clear_tables
      { c with store := c.store.filter (fun p => !(p.1 == key)) })

/-- `Cache.refresh`: fall back to `self._refresh_prob` when `p` is `None`; on
a successful Bernoulli draw, remove the key and load one replacement. -/
def Cache.refresh (c : Cache) (key : String) (p : Option ℚ) (r : ℚ) :
    Except Err Cache :=
  let prob := p.getD c.refresh_prob
  if bernoulli prob r then
    match c.remove key with
    | .error e => .error e
    | .ok c1 => c1.load 1
  else .ok c

/-- `Cache.refresh_rand`: `choice(self.keys())` (failing on an empty resident
set), then `refresh`; the drawn position is `d` modulo the number of keys. -/
def Cache.refresh_rand (c : Cache) (p : Option ℚ) (d : Nat) (r : ℚ) :
    Except Err Cache :=
  if c.store.isEmpty then .error .EmptyChoice
  else c.refresh ((c.store.map Prod.fst).getD (d % c.store.length) "") p r

/-- `LabelBatch.load`: `num_items` times, pull one pair from the source and
`update` the ordered mapping with it; exhaustion fails the call. Returns the
new mapping and the remaining source stream. -/
def lbLoad (m : List (String × Item)) (stream : List (String × Item)) :
    Nat → Except Err (List (String × Item) × List (String × Item))
  | 0 => .ok (m, stream)
  | n + 1 =>
    match stream with
    | [] => .error .SourceExhausted
    | (k, v) :: rest => lbLoad (dictInsert m k v) rest n

/-- `LabelBatch.refresh`: clear the mapping, then `load(batch_size)`. -/
def lbRefresh (stream : List (String × Item)) (batch_size : Nat) :
    Except Err (List (String × Item) × List (String × Item)) :=
  lbLoad [] stream batch_size

/-- `LabelBatch.labels`: the `label_key` label of each resident item in
iteration order (batches hold `Sample` items; a missing or non-scalar label
reads as the empty string). -/
def lbLabels (m : List (String × Item)) (label_key : String) : List String :=
  m.map (fun p =>
    match p.2.labels with
    | .Sample sm => ((sm.find? (fun q => q.1 == label_key)).map Prod.snd).getD ""
    | .Sequence _ => "")

/-- `np.arange(N)[labels == labels[y]]` (`same = true`) respectively
`np.arange(N)[labels != labels[y]]` (`same = false`): the positions whose
label agrees/disagrees with `yl`. -/
def matchIdx (labels : List String) (yl : String) (same : Bool) : List Nat :=
  (List.range labels.length).filter (fun i => (labels.getD i "" == yl) == same)

/-- `random.choice` on a list of candidate positions, the drawn position `d`
taken modulo the length; fails (IndexError) on an empty list. -/
def choiceIdx (l : List Nat) (d : Nat) : Option Nat :=
  if l.isEmpty then none else some (l.getD (d % l.length) 0)

/-- One pairing loop of `PairedBatch._pair`: per iteration, draw an anchor
(`np.random.randint(N)`, the draw taken modulo `N`), collect the candidate
positions with the same (`same = true`, anchor removed) or a different
(`same = false`) label, and `choice` one of them; any failure aborts the whole
pass. Each iteration appends to both index lists in lockstep. -/
def pairLoop (labels : List String) (same : Bool) :
    List (Nat × Nat) → Option (List Nat × List Nat)
  | [] => some ([], [])
  | (a, d) :: rest =>
    if labels.length = 0 then none
    else
      let y := a % labels.length
      let yl := labels.getD y ""
      let cand :=
        if same then (matchIdx labels yl true).erase y
        else matchIdx labels yl false
      match choiceIdx cand d with
      | none => none
      | some b =>
        match pairLoop labels same rest with
        | none => none
        | some ab => some (y :: ab.1, b :: ab.2)

/-- `PairedBatch._pair` before the final truncation: `batch_size / 2`
same-label iterations followed by `batch_size / 2` different-label iterations
(`self._batch_size / 2` is integer division), draws supplied by the oracles
`d1`, `d2` (anchor draw, choice draw per iteration). -/
def pairRaw (labels : List String) (batch_size : Nat) (d1 d2 : Nat → Nat × Nat) :
    Option (List Nat × List Nat) :=
  match pairLoop labels true ((List.range (batch_size / 2)).map d1) with
  | none => none
  | some ab1 =>
    match pairLoop labels false ((List.range (batch_size / 2)).map d2) with
    | none => none
    | some ab2 => some (ab1.1 ++ ab2.1, ab1.2 ++ ab2.2)

/-- `PairedBatch._pair` including the final truncation of both index lists to
`M = min(len(idx_A), len(idx_B))`. -/
def pairFinal (labels : List String) (batch_size : Nat) (d1 d2 : Nat → Nat × Nat) :
    Option (List Nat × List Nat) :=
  match pairRaw labels batch_size d1 d2 with
  | none => none
  | some ab =>
    let M := min ab.1.length ab.2.length
    some (ab.1.take M, ab.2.take M)

/-- `PairedBatch.equals`:
`np.equal(labels[idx_A], labels[idx_B]).astype(float)`, elementwise `1.0`
where the labels at the paired positions agree and `0.0` where they differ. -/
def equalsArr (labels : List String) (idxA idxB : List Nat) : List ℚ :=
  List.zipWith
    (fun i j => if labels.getD i "" = labels.getD j "" then (1 : ℚ) else 0)
    idxA idxB

/-- A `Sample` item labelled "x" under the single label key "lk". -/
def itemA : Item := ⟨[0], .Sample [("lk", "x")]⟩

/-- A `Sample` item labelled "y" under the single label key "lk". -/
def itemB : Item := ⟨[1], .Sample [("lk", "y")]⟩

/-- A second `Sample` item labelled "x" under the single label key "lk". -/
def itemC : Item := ⟨[2], .Sample [("lk", "x")]⟩

/-- A store holding only item a. -/
def storeA : Store := { items := [("a", itemA)] }

/-- A store holding items a and b. -/
def storeAB : Store := { items := [("a", itemA), ("b", itemB)] }

/-- A PersistentStore holding exactly three Sample items keyed a, b, c with
labels x, y, x. -/
def storeABC : Store := { items := [("a", itemA), ("b", itemB), ("c", itemC)] }

/-- The label enumeration `create_tables` produces on `storeABC`. -/
def enumABC : List (String × Nat) := storeABC.create_tables.tEnum.getD []

/-- The index table `create_tables` produces on `storeABC`. -/
def indexABC : List IdxRow := storeABC.create_tables.tIndex.getD []

/-- The code `create_tables` assigned to label "x" on `storeABC`. -/
def codeX : Nat := ((enumABC.find? (fun p => p.1 == "x")).map Prod.snd).getD 99

/-- The code `create_tables` assigned to label "y" on `storeABC`. -/
def codeY : Nat := ((enumABC.find? (fun p => p.1 == "y")).map Prod.snd).getD 99

/-- The empty store. -/
def emptyStore : Store := { items := [] }

/-- A store holding item a under key "k". -/
def storeK : Store := { items := [("k", itemA)] }

/-- An item carrying an empty-string (falsy) label value. -/
def c7item : Item := ⟨[1], .Sample [("lab", "")]⟩

/-- What persisting `c7item` leaves behind: the falsy label is dropped by the
attribute filter of `add`. -/
def c7stored : Item := ⟨[1], .Sample []⟩

/-- `add` followed by `get` on the empty-label item, starting from the empty
store. -/
def c7run : Except Err Fetched :=
  match emptyStore.add "k" c7item with
  | .ok s => s.get "k"
  | .error e => .error e

/-- All attribute values of an item are truthy, so that the attribute filter
of `add` keeps every label: every scalar label is nonempty and every label
sequence is nonempty. -/
def truthyLabels : ItemLabels → Bool
  | .Sample m => m.all (fun p => !(p.2 == ""))
  | .Sequence m => m.all (fun p => !p.2.isEmpty)

/-- A three-item source stream whose declared `num_items` will be 2: the first
two pulls are distinct items, the third models a source that keeps yielding
(e.g. a cycling store iterator). -/
def c2stream : List (String × Item) := [("a", itemA), ("b", itemB), ("c", itemC)]

/-- `Cache(source_with_2_items, cache_size=5, refresh_prob=1)` — the dataset
fits in the cache, so the spec expects replacement disabled. -/
def c2cache : Except Err Cache := Cache.init c2stream 2 5 1

/-- A `refresh` with the default probability on the fully-cached dataset. -/
def c2refreshed : Except Err Cache :=
  match c2cache with
  | .ok c => c.refresh "a" none 0
  | .error e => .error e

/-- A `refresh_rand` with the default probability on the fully-cached
dataset. -/
def c2refreshedRand : Except Err Cache :=
  match c2cache with
  | .ok c => c.refresh_rand none 0 0
  | .error e => .error e

/-- A one-item cache with one more pull available. -/
def cacheA1 : Cache :=
  { store := [("a", itemA)], refresh_prob := 1, stream := [("b", itemB)],
    num_items := 5 }

/-- A two-item cache with one more pull available. -/
def cacheAB1 : Cache :=
  { store := [("a", itemA), ("b", itemB)], refresh_prob := 1,
    stream := [("c", itemC)], num_items := 5 }

/-- `cacheAB1` after removing key "a". -/
def cacheB1 : Cache :=
  { store := [("b", itemB)], refresh_prob := 1, stream := [("c", itemC)],
    num_items := 5 }

/-- Build the local tables of `cacheA1` by reading `label_enum`, then `load`
one more item. -/
def c5run : Except Err Cache := ((cacheA1.label_enum).2).load 1

/-- A second `Sample` item labelled "y" under the single label key "lk". -/
def itemD : Item := ⟨[3], .Sample [("lk", "y")]⟩

/-- A four-item source stream whose labels are x, x, y, y. -/
def stream4 : List (String × Item) :=
  [("p", itemA), ("q", itemC), ("r", itemB), ("s", itemD)]

/-- The labels of `stream4` under label key "lk". -/
def labelsXXYY : List String := ["x", "x", "y", "y"]

/-- A draw oracle always answering 0. -/
def drawZero : Nat → Nat × Nat := fun _ => (0, 0)

/-- A draw oracle answering the iteration number. -/
def drawId : Nat → Nat × Nat := fun n => (n, n)

/-- A source stream that yields the same key twice. -/
def c9dupStream : List (String × Item) := [("k", itemA), ("k", itemB)]

/-- Well-formedness of a label enumeration: the codes are exactly
`0, 1, …, length - 1` in assignment order. -/
def enumWF (e : List (String × Nat)) : Prop :=
  e.map Prod.snd = List.range e.length

theorem enumWF_nil : enumWF [] := by simp [enumWF]

theorem enumCode_wf {e : List (String × Nat)} {lab : String} (h : enumWF e) :
    enumWF (enumCode e lab).1 := by
  unfold enumCode
  cases hf : e.find? (fun p => p.1 == lab) with
  | some p => simpa using h
  | none =>
    simp only [enumWF, List.map_append, List.length_append] at *
    simp [h, List.range_succ]

theorem enumCode_len_le {e : List (String × Nat)} {lab : String} :
    e.length ≤ (enumCode e lab).1.length := by
  unfold enumCode
  cases hf : e.find? (fun p => p.1 == lab) <;> simp

theorem enumCode_code_lt {e : List (String × Nat)} {lab : String} (h : enumWF e) :
    (enumCode e lab).2 < (enumCode e lab).1.length := by
  unfold enumCode
  cases hf : e.find? (fun p => p.1 == lab) with
  | some p =>
    have hm : p ∈ e := List.mem_of_find?_eq_some hf
    have hm2 : p.2 ∈ e.map Prod.snd := List.mem_map_of_mem Prod.snd hm
    rw [h] at hm2
    simpa using List.mem_range.mp hm2
  | none => simp

theorem scanCells_wf {e : List (String × Nat)} {ki : Nat}
    {cells : List (Option Nat × String)} (h : enumWF e) :
    enumWF (scanCells e ki cells).1 := by
  induction cells generalizing e with
  | nil => simpa [scanCells] using h
  | cons c rest ih =>
    obtain ⟨si, lab⟩ := c
    simpa [scanCells] using ih (enumCode_wf h)

theorem scanCells_len_le {e : List (String × Nat)} {ki : Nat}
    {cells : List (Option Nat × String)} :
    e.length ≤ (scanCells e ki cells).1.length := by
  induction cells generalizing e with
  | nil => simp [scanCells]
  | cons c rest ih =>
    obtain ⟨si, lab⟩ := c
    calc e.length ≤ (enumCode e lab).1.length := enumCode_len_le
      _ ≤ _ := by simpa [scanCells] using ih

theorem scanCells_rows {e : List (String × Nat)} {ki : Nat}
    {cells : List (Option Nat × String)} (h : enumWF e) :
    ∀ row ∈ (scanCells e ki cells).2,
      row.keyIdx = ki ∧ row.code < (scanCells e ki cells).1.length := by
  induction cells generalizing e with
  | nil => simp [scanCells]
  | cons c rest ih =>
    obtain ⟨si, lab⟩ := c
    intro row hr
    simp only [scanCells, List.mem_cons] at hr
    rcases hr with hr | hr
    · subst hr
      refine ⟨rfl, ?_⟩
      calc (enumCode e lab).2 < (enumCode e lab).1.length := enumCode_code_lt h
        _ ≤ _ := by simpa [scanCells] using scanCells_len_le
    · simpa [scanCells] using ih (enumCode_wf h) row hr

theorem scanItems_wf {e : List (String × Nat)} {ki : Nat}
    {items : List (String × Item)} (h : enumWF e) :
    enumWF (scanItems e ki items).2.1 := by
  induction items generalizing e ki with
  | nil => simpa [scanItems] using h
  | cons a rest ih =>
    obtain ⟨k, it⟩ := a
    by_cases hk : is_keylike k = true
    · simpa [scanItems, hk] using ih (scanCells_wf h)
    · simpa [scanItems, hk] using ih h

theorem scanItems_len_le {e : List (String × Nat)} {ki : Nat}
    {items : List (String × Item)} :
    e.length ≤ (scanItems e ki items).2.1.length := by
  induction items generalizing e ki with
  | nil => simp [scanItems]
  | cons a rest ih =>
    obtain ⟨k, it⟩ := a
    by_cases hk : is_keylike k = true
    · calc e.length ≤ (scanCells e ki (labelCells it.labels)).1.length :=
          scanCells_len_le
        _ ≤ _ := by simpa [scanItems, hk] using ih
    · simpa [scanItems, hk] using ih

theorem scanItems_keys {e : List (String × Nat)} {ki : Nat}
    {items : List (String × Item)} :
    (scanItems e ki items).1 = (items.map Prod.fst).filter is_keylike := by
  induction items generalizing e ki with
  | nil => simp [scanItems]
  | cons a rest ih =>
    obtain ⟨k, it⟩ := a
    by_cases hk : is_keylike k = true
    · simp [scanItems, hk, cleanse, ih]
    · simp [scanItems, hk, ih, Bool.eq_false_iff.mpr hk]

theorem scanItems_rows {e : List (String × Nat)} {ki : Nat}
    {items : List (String × Item)} (h : enumWF e) :
    ∀ row ∈ (scanItems e ki items).2.2,
      ki ≤ row.keyIdx ∧ row.keyIdx < ki + (scanItems e ki items).1.length ∧
        row.code < (scanItems e ki items).2.1.length := by
  induction items generalizing e ki with
  | nil => simp [scanItems]
  | cons a rest ih =>
    obtain ⟨k, it⟩ := a
    by_cases hk : is_keylike k = true
    · intro row hr
      simp only [scanItems, hk, if_pos, List.mem_append] at hr
      rcases hr with hr | hr
      · obtain ⟨hki, hcode⟩ := scanCells_rows h row hr
        subst hki
        refine ⟨le_refl _, by simp [scanItems, hk], ?_⟩
        calc row.code < (scanCells e row.keyIdx (labelCells it.labels)).1.length :=
            hcode
          _ ≤ _ := by simpa [scanItems, hk] using scanItems_len_le
      · obtain ⟨h1, h2, h3⟩ := ih (scanCells_wf h) row hr
        refine ⟨by omega, ?_, by simpa [scanItems, hk] using h3⟩
        have : row.keyIdx < ki + 1 + (scanItems (scanCells e ki
            (labelCells it.labels)).1 (ki + 1) rest).1.length := h2
        simp only [scanItems, hk, if_pos, List.length_cons]
        omega
    · intro row hr
      simp only [scanItems, hk] at hr
      obtain ⟨h1, h2, h3⟩ := ih h row (by simpa using hr)
      exact ⟨h1, by simpa [scanItems, hk] using h2, by simpa [scanItems, hk] using h3⟩

theorem tablesConsistent_create_tables (s : Store) :
    tablesConsistent s.create_tables = true := by
  simp only [tablesConsistent, Store.create_tables, Store.clearPersistent,
    Store.clearLocal]
  rw [Bool.and_eq_true]
  constructor
  · rw [scanItems_keys]
    simp
  · rw [List.all_eq_true]
    intro row hr
    obtain ⟨-, h2, h3⟩ := scanItems_rows enumWF_nil row hr
    rw [Bool.and_eq_true]
    constructor
    · have hwf := @scanItems_wf [] 0 s.items enumWF_nil
      have hmem : row.code ∈ (scanItems [] 0 s.items).2.1.map Prod.snd := by
        rw [hwf]
        exact List.mem_range.mpr h3
      simpa [List.contains] using List.elem_iff.mpr hmem
    · simp only [decide_eq_true_eq]
      omega

theorem keysRead_invalidated {s : Store} (h : invalidated s = true) :
    s.keysRead = ((s.items.map Prod.fst).filter is_keylike, s.create_tables) := by
  simp only [invalidated, Bool.and_eq_true, Option.isNone_iff_eq_none,
    List.isEmpty_iff] at h
  obtain ⟨⟨⟨⟨⟨h1, h2⟩, h3⟩, h4⟩, h5⟩, h6⟩ := h
  simp only [Store.keysRead, h1, Option.isSome_none, Bool.false_eq_true,
    if_false, Store.create_tables, Store.clearPersistent, Store.clearLocal,
    Option.getD_some, ite_self]
  rw [← @scanItems_keys [] 0 s.items]

theorem label_enumRead_invalidated {s : Store} (h : invalidated s = true) :
    s.label_enumRead = ((scanItems [] 0 s.items).2.1, s.create_tables) := by
  simp only [invalidated, Bool.and_eq_true, Option.isNone_iff_eq_none,
    List.isEmpty_iff] at h
  obtain ⟨⟨⟨⟨⟨h1, h2⟩, h3⟩, h4⟩, h5⟩, h6⟩ := h
  simp only [Store.label_enumRead, h2, Option.isSome_none, Bool.false_eq_true,
    if_false, Store.create_tables, Store.clearPersistent, Store.clearLocal,
    Option.getD_some, ite_self]

theorem index_tableRead_invalidated {s : Store} (h : invalidated s = true) :
    s.index_tableRead = ((scanItems [] 0 s.items).2.2, s.create_tables) := by
  simp only [invalidated, Bool.and_eq_true, Option.isNone_iff_eq_none,
    List.isEmpty_iff] at h
  obtain ⟨⟨⟨⟨⟨h1, h2⟩, h3⟩, h4⟩, h5⟩, h6⟩ := h
  simp only [Store.index_tableRead, h3, Option.isSome_none, Bool.false_eq_true,
    if_false, Store.create_tables, Store.clearPersistent, Store.clearLocal,
    Option.getD_some]

theorem add_invalidated {s : Store} {key : String} {it : Item} {s' : Store}
    (h : s.add key it = .ok s') : invalidated s' = true := by
  simp only [Store.add] at h
  split at h
  · simp at h
  · split at h
    · simp at h
    · injection h with h2
      rw [← h2]
      rfl

theorem remove_invalidated {s : Store} {key : String} {s' : Store}
    (h : s.remove key = .ok s') : invalidated s' = true := by
  simp only [Store.remove] at h
  split at h
  · simp at h
  · injection h with h2
    rw [← h2]
    rfl

/-- C1: after any successful `add` or `remove` on a PersistentStore — from an
arbitrary state, hence immediately after each call of every sequence of such
calls — the three derived tables (KeyManifest, LabelEnum, IndexTable) are all
invalidated, and the next read of any one of `keys()` / `label_enum()` /
`index_table()` rebuilds all three together, so that `keys()` returns exactly
the currently-stored non-reserved keys, every label code of the IndexTable
appears in the LabelEnum, and every key index resolves to a position in the
KeyManifest. -/
theorem C1_mutation_invalidates_then_reads_rebuild_consistently
    (s : Store) (key : String) (it : Item) (s' : Store)
    (h : s.add key it = .ok s' ∨ s.remove key = .ok s') :
    invalidated s' = true
      ∧ s'.keysRead
          = ((s'.items.map Prod.fst).filter is_keylike, s'.create_tables)
      ∧ s'.label_enumRead = ((scanItems [] 0 s'.items).2.1, s'.create_tables)
      ∧ s'.index_tableRead = ((scanItems [] 0 s'.items).2.2, s'.create_tables)
      ∧ tablesConsistent s'.create_tables = true := by
  have hinv : invalidated s' = true := by
    rcases h with h | h
    · exact add_invalidated h
    · exact remove_invalidated h
  exact ⟨hinv, keysRead_invalidated hinv, label_enumRead_invalidated hinv,
    index_tableRead_invalidated hinv, tablesConsistent_create_tables s'⟩

/-- Witness for C1: adding item b to the store holding item a. -/
theorem C1_mutation_invalidates_then_reads_rebuild_consistently_witness :
    (storeA.add "b" itemB = .ok storeAB ∨ storeA.remove "b" = .ok storeAB)
      ∧ (invalidated storeAB = true
          ∧ storeAB.keysRead
              = ((storeAB.items.map Prod.fst).filter is_keylike,
                 storeAB.create_tables)
          ∧ storeAB.label_enumRead
              = ((scanItems [] 0 storeAB.items).2.1, storeAB.create_tables)
          ∧ storeAB.index_tableRead
              = ((scanItems [] 0 storeAB.items).2.2, storeAB.create_tables)
          ∧ tablesConsistent storeAB.create_tables = true) :=
  ⟨Or.inl (by decide),
   C1_mutation_invalidates_then_reads_rebuild_consistently storeA "b" itemB
     storeAB (Or.inl (by decide))⟩

/-- C8: on the PersistentStore holding exactly three Sample items keyed
a, b, c with labels x, y, x, `create_tables()` produces a label enumeration
that is a bijection from the label set {x, y} onto the code set {0, 1}, and an
index table with exactly 3 rows, exactly two of which carry the code assigned
to x and exactly one the code assigned to y. -/
theorem C8_three_sample_items_tables :
    (enumABC.map Prod.fst).Perm ["x", "y"]
      ∧ (enumABC.map Prod.snd).Perm [0, 1]
      ∧ indexABC.length = 3
      ∧ (indexABC.filter (fun row => row.code == codeX)).length = 2
      ∧ (indexABC.filter (fun row => row.code == codeY)).length = 1 := by
  decide

/-- C6 counterexample: after a table rebuild the reserved manifest entry is
present on disk, and `get` on that reserved key succeeds (the containment
assert passes) instead of failing with NotFound. -/
theorem C6_counterexample_get_on_present_reserved_key :
    storeA.create_tables.tKeys.isSome = true
      ∧ storeA.create_tables.get KEY_MANIFEST = .ok (.table KEY_MANIFEST) := by
  decide

/-- C6 amended: `get(key)` fails with NotFound exactly when the key is absent
from the underlying file; a reserved key is rejected only while its table
entry is absent on disk — when the entry is present, the containment check
passes and `get` returns the entry instead of failing. -/
theorem C6_amended_get_notfound_iff_absent (s : Store) (key : String) :
    s.get key = .error .NotFound ↔ s.contains key = false := by
  unfold Store.get
  cases hc : s.contains key with
  | false => simp
  | true =>
    simp only [Bool.not_true, Bool.false_eq_true, if_false]
    cases hf : s.items.find? (fun p => p.1 == key) <;> simp

/-- C7 counterexample: adding an item whose label value is the empty string
and reading it back yields an item whose label mapping lost that entry — the
`elif v:` attribute filter drops falsy non-numeric values. -/
theorem C7_counterexample_empty_label_dropped :
    c7run = .ok (.item c7stored) ∧ c7stored ≠ c7item := by
  decide

/-- C7 amended: for every item all of whose label values are truthy (nonempty
scalar labels, nonempty label sequences), `add(key, item)` followed by
`get(key)` returns an item with identical value array and identical label
mapping. -/
theorem C7_amended_roundtrip_truthy_labels (s : Store) (key : String)
    (it : Item) (s' : Store) (ht : truthyLabels it.labels = true)
    (h : s.add key it = .ok s') : s'.get key = .ok (.item it) := by
  have hstore : storeItem it = it := by
    obtain ⟨v, labs⟩ := it
    cases labs with
    | Sample m =>
      simp only [truthyLabels] at ht
      simp only [storeItem, storeLabels]
      rw [List.filter_eq_self.mpr (List.all_eq_true.mp ht)]
    | Sequence m =>
      simp only [truthyLabels] at ht
      simp only [storeItem, storeLabels]
      rw [List.filter_eq_self.mpr (List.all_eq_true.mp ht)]
  simp only [Store.add, cleanse] at h
  split at h
  · simp at h
  · rename_i hkey
    split at h
    · simp at h
    · rename_i hdup
      injection h with h2
      rw [← h2]
      have hnone : s.clearPersistent.items.find? (fun p => p.1 == key)
          = none := by
        rw [List.find?_eq_none]
        intro x hx hpx
        exact hdup (List.any_eq_true.mpr ⟨x, hx, hpx⟩)
      have hany : (s.clearPersistent.items ++ [(key, storeItem it)]).any
          (fun p => p.1 == key) = true := by
        rw [List.any_eq_true]
        exact ⟨(key, storeItem it), by simp, by simp⟩
      simp [Store.get, Store.contains, hany, hnone, hstore]

/-- Witness for C7 amended: the item labelled "x" round-trips through the
empty store. -/
theorem C7_amended_roundtrip_truthy_labels_witness :
    truthyLabels itemA.labels = true
      ∧ emptyStore.add "k" itemA = .ok storeK
      ∧ storeK.get "k" = .ok (.item itemA) :=
  ⟨by decide, by decide,
   C7_amended_roundtrip_truthy_labels emptyStore "k" itemA storeK (by decide)
     (by decide)⟩

theorem load_preserves_tables : ∀ (n : Nat) (c c' : Cache),
    c.load n = .ok c' →
      c'.cEnum = c.cEnum ∧ c'.cIndex = c.cIndex ∧ c'.cKeys = c.cKeys := by
  intro n
  induction n with
  | zero =>
    intro c c' h
    simp only [Cache.load] at h
    injection h with h2
    rw [← h2]
    exact ⟨rfl, rfl, rfl⟩
  | succ m ih =>
    intro c c' h
    simp only [Cache.load] at h
    split at h
    · simp at h
    · have h3 := ih _ _ h
      exact h3

/-- C2, at the failing input: with `num_items = 2 < cache_size = 5` and
constructor `refresh_prob = 1`, construction loads the whole two-item dataset,
but `self._refresh_prob` keeps the constructor value (the clamping assignment
writes a dead local variable), so a subsequent `refresh` or `refresh_rand`
with the default probability evicts a resident item and loads a replacement —
not a no-op as the spec requires. -/
theorem C2_fully_cached_refresh_still_evicts :
    c2cache.map (fun c => (c.store.map Prod.fst, c.refresh_prob))
        = .ok (["a", "b"], 1)
      ∧ c2refreshed.map (fun c => c.store.map Prod.fst) = .ok ["b", "c"]
      ∧ c2refreshedRand.map (fun c => c.store.map Prod.fst) = .ok ["b", "c"] := by
  decide

/-- C4 counterexample: `refresh` on a key that is not resident, with
probability 0, silently succeeds as a no-op instead of failing with NotFound —
the containment check sits behind the Bernoulli draw. -/
theorem C4_counterexample_nonresident_p0_succeeds :
    cacheA1.store.any (fun q => q.1 == "z") = false
      ∧ cacheA1.refresh "z" (some 0) 0 = .ok cacheA1 := by
  decide

/-- C4 amended: for a key not in the resident set, `refresh(key, p)` fails
with NotFound exactly on a successful Bernoulli draw — always for `p = 1.0`,
never for `p = 0.0`, where it is a no-op; for a resident key and a source able
to supply one item, `refresh(key, p=1.0)` always evicts that key and loads
exactly one replacement, and `refresh(key, p=0.0)` never evicts. -/
theorem C4_amended_refresh_eviction_and_notfound (c : Cache) (key : String)
    (p r : ℚ) (h0 : 0 ≤ r) (h1 : r < 1) :
    (c.store.any (fun q => q.1 == key) = false →
        (r < p → c.refresh key (some p) r = .error .NotFound)
          ∧ c.refresh key (some 1) r = .error .NotFound
          ∧ c.refresh key (some 0) r = .ok c)
      ∧ (c.store.any (fun q => q.1 == key) = true →
          c.refresh key (some 0) r = .ok c
            ∧ ∀ k v rest, c.stream = (k, v) :: rest →
                c.refresh key (some 1) r
                  = .ok { store := dictInsert
                            (c.store.filter (fun q => !(q.1 == key))) k v,
                          refresh_prob := c.refresh_prob, stream := rest,
                          num_items := c.num_items }) := by
  have hb0 : bernoulli 0 r = false := by
    simp [bernoulli, not_lt.mpr h0]
  have hb1 : bernoulli 1 r = true := by
    simp [bernoulli, h1]
  constructor
  · intro habs
    refine ⟨?_, ?_, ?_⟩
    · intro hrp
      simp [Cache.refresh, bernoulli, hrp, Cache.remove, habs]
    · simp [Cache.refresh, hb1, Cache.remove, habs]
    · simp [Cache.refresh, hb0]
  · intro hres
    refine ⟨by simp [Cache.refresh, hb0], ?_⟩
    intro k v rest hstream
    simp [Cache.refresh, hb1, Cache.remove, hres, Cache.clear_tables,
      Cache.load, hstream]

/-- Witness for C4 amended at the one-item cache, key "a", `p = 1`, `r = 0`. -/
theorem C4_amended_refresh_eviction_and_notfound_witness :
    (0 : ℚ) ≤ 0 ∧ (0 : ℚ) < 1
      ∧ ((cacheA1.store.any (fun q => q.1 == "a") = false →
            ((0 : ℚ) < 1 → cacheA1.refresh "a" (some 1) 0 = .error .NotFound)
              ∧ cacheA1.refresh "a" (some 1) 0 = .error .NotFound
              ∧ cacheA1.refresh "a" (some 0) 0 = .ok cacheA1)
          ∧ (cacheA1.store.any (fun q => q.1 == "a") = true →
              cacheA1.refresh "a" (some 0) 0 = .ok cacheA1
                ∧ ∀ k v rest, cacheA1.stream = (k, v) :: rest →
                    cacheA1.refresh "a" (some 1) 0
                      = .ok { store := dictInsert
                                (cacheA1.store.filter (fun q => !(q.1 == "a")))
                                k v,
                              refresh_prob := cacheA1.refresh_prob,
                              stream := rest,
                              num_items := cacheA1.num_items })) :=
  ⟨by decide, by decide,
   C4_amended_refresh_eviction_and_notfound cacheA1 "a" 1 0 (by decide)
     (by decide)⟩

/-- C5 counterexample: build the local tables of a one-item cache (label x),
then `load` one more item (label y): the local label enumeration is not
invalidated, so the next `label_enum()` returns the stale one-label table even
though a rebuild over the current resident set would contain both labels. -/
theorem C5_counterexample_load_keeps_stale_tables :
    c5run.map (fun c => (c.cEnum, (c.label_enum).1, c.create_tables.cEnum))
      = .ok ([("x", 0)], [("x", 0)], [("x", 0), ("y", 1)]) := by
  decide

/-- C5 amended: every `remove` invalidates the Cache's local label_enum and
index_table, so the next `label_enum()` / `index_table()` call rebuilds them
over exactly the current resident set; `load` by itself never touches the
local tables (the rebuild call in it is commented out) — internal loads are
paired with a preceding clear (`__init__`) or `remove` (`refresh`). -/
theorem C5_amended_remove_invalidates_load_does_not (c c' : Cache)
    (key : String) (h : c.remove key = .ok c') :
    c'.cEnum = [] ∧ c'.cIndex = [] ∧ c'.cKeys = []
      ∧ c'.label_enum = (c'.create_tables.cEnum, c'.create_tables)
      ∧ c'.index_table = (c'.create_tables.cIndex, c'.create_tables)
      ∧ ∀ c'' n, c.load n = .ok c'' →
          c''.cEnum = c.cEnum ∧ c''.cIndex = c.cIndex := by
  simp only [Cache.remove] at h
  split at h
  · simp at h
  · injection h with h2
    refine ⟨by rw [← h2]; rfl, by rw [← h2]; rfl, by rw [← h2]; rfl, ?_, ?_, ?_⟩
    · have he : c'.cEnum = [] := by rw [← h2]; rfl
      simp [Cache.label_enum, he]
    · have hi : c'.cIndex = [] := by rw [← h2]; rfl
      simp [Cache.index_table, hi]
    · intro c'' n hl
      exact ⟨(load_preserves_tables n c c'' hl).1,
        (load_preserves_tables n c c'' hl).2.1⟩

/-- Witness for C5 amended: removing key "a" from the two-item cache. -/
theorem C5_amended_remove_invalidates_load_does_not_witness :
    cacheAB1.remove "a" = .ok cacheB1
      ∧ (cacheB1.cEnum = [] ∧ cacheB1.cIndex = [] ∧ cacheB1.cKeys = []
          ∧ cacheB1.label_enum
              = (cacheB1.create_tables.cEnum, cacheB1.create_tables)
          ∧ cacheB1.index_table
              = (cacheB1.create_tables.cIndex, cacheB1.create_tables)
          ∧ ∀ c'' n, cacheAB1.load n = .ok c'' →
              c''.cEnum = cacheAB1.cEnum ∧ c''.cIndex = cacheAB1.cIndex) :=
  ⟨by decide,
   C5_amended_remove_invalidates_load_does_not cacheAB1 cacheB1 "a" (by decide)⟩

theorem dictInsert_length_le (m : List (String × Item)) (k : String)
    (v : Item) : (dictInsert m k v).length ≤ m.length + 1 := by
  unfold dictInsert
  split
  · simp
  · simp

theorem dictInsert_fresh {m : List (String × Item)} {k : String} {v : Item}
    (h : ∀ p ∈ m, p.1 ≠ k) : dictInsert m k v = m ++ [(k, v)] := by
  unfold dictInsert
  rw [if_neg]
  intro hany
  obtain ⟨p, hp, hpk⟩ := List.any_eq_true.mp hany
  exact h p hp (by simpa using hpk)

theorem lbLoad_spec : ∀ (n : Nat) (m stream m' rest : List (String × Item)),
    lbLoad m stream n = .ok (m', rest) →
      rest = stream.drop n ∧ n ≤ stream.length
        ∧ m'.length ≤ m.length + n := by
  intro n
  induction n with
  | zero =>
    intro m stream m' rest h
    simp only [lbLoad] at h
    injection h with h2
    injection h2 with ha hb
    subst ha
    subst hb
    simp
  | succ j ih =>
    intro m stream m' rest h
    match hs : stream with
    | [] => simp [lbLoad] at h
    | (k, v) :: tail =>
      simp only [lbLoad] at h
      obtain ⟨h1, h2, h3⟩ := ih _ _ _ _ h
      refine ⟨by simpa using h1, by simpa using Nat.succ_le_succ h2, ?_⟩
      calc m'.length ≤ (dictInsert m k v).length + j := h3
        _ ≤ m.length + 1 + j := by
            have := dictInsert_length_le m k v
            omega
        _ = m.length + (j + 1) := by omega

theorem lbLoad_distinct : ∀ (n : Nat) (m stream m' rest : List (String × Item)),
    lbLoad m stream n = .ok (m', rest) →
      ((stream.take n).map Prod.fst).Nodup →
      (∀ p ∈ m, ∀ q ∈ stream.take n, p.1 ≠ q.1) →
      m' = m ++ stream.take n := by
  intro n
  induction n with
  | zero =>
    intro m stream m' rest h _ _
    simp only [lbLoad] at h
    injection h with h2
    injection h2 with ha hb
    subst ha
    simp
  | succ j ih =>
    intro m stream m' rest h hnd hdisj
    match hs : stream with
    | [] => simp [lbLoad] at h
    | (k, v) :: tail =>
      simp only [lbLoad] at h
      simp only [List.take_succ_cons, List.map_cons, List.nodup_cons] at hnd
      obtain ⟨hk, hnd2⟩ := hnd
      have hfresh : ∀ p ∈ m, p.1 ≠ k := by
        intro p hp
        exact hdisj p hp (k, v) (by simp)
      rw [dictInsert_fresh hfresh] at h
      have hdisj2 : ∀ p ∈ m ++ [(k, v)], ∀ q ∈ tail.take j, p.1 ≠ q.1 := by
        intro p hp q hq
        rcases List.mem_append.mp hp with hp | hp
        · exact hdisj p hp q (by simp [hq])
        · have hpk : p = (k, v) := by simpa using hp
          subst hpk
          intro hcon
          exact hk (by
            have : q.1 ∈ (tail.take j).map Prod.fst :=
              List.mem_map_of_mem Prod.fst hq
            rw [← hcon] at this
            exact this)
      have := ih _ _ _ _ h hnd2 hdisj2
      rw [this]
      simp

theorem lbLoad_exhausted : ∀ (n : Nat) (m stream : List (String × Item)),
    stream.length < n → lbLoad m stream n = .error .SourceExhausted := by
  intro n
  induction n with
  | zero =>
    intro m stream h
    omega
  | succ j ih =>
    intro m stream h
    match stream with
    | [] => simp [lbLoad]
    | (k, v) :: tail =>
      simp only [lbLoad]
      exact ih _ _ (by simpa using Nat.lt_of_succ_lt_succ h)

/-- C9 counterexample: a source that yields the same key twice. A refresh with
`batch_size = 2` succeeds, but the ordered mapping `update` collapses the
duplicate key, so the batch holds 1 resident item, not 2. -/
theorem C9_counterexample_duplicate_keys_collapse :
    lbRefresh c9dupStream 2 = .ok ([("k", itemB)], [])
      ∧ ([("k", itemB)] : List (String × Item)).length ≠ 2 := by
  decide

/-- C9 amended: `refresh()` empties the resident mapping and performs exactly
`batch_size` pulls from the Source, failing with SourceExhausted whenever the
Source cannot supply that many; after a successful refresh the batch holds at
most `batch_size` resident items — exactly the `batch_size` pulled pairs when
their keys are pairwise distinct, and fewer when duplicate keys collapse under
the ordered-mapping update. -/
theorem C9_amended_refresh_pull_count (stream : List (String × Item))
    (batch_size : Nat) :
    (∀ m rest, lbRefresh stream batch_size = .ok (m, rest) →
        rest = stream.drop batch_size ∧ batch_size ≤ stream.length
          ∧ m.length ≤ batch_size
          ∧ (((stream.take batch_size).map Prod.fst).Nodup →
              m = stream.take batch_size))
      ∧ (stream.length < batch_size →
          lbRefresh stream batch_size = .error .SourceExhausted) := by
  constructor
  · intro m rest h
    obtain ⟨h1, h2, h3⟩ := lbLoad_spec batch_size [] stream m rest h
    refine ⟨h1, h2, by simpa using h3, ?_⟩
    intro hnd
    have := lbLoad_distinct batch_size [] stream m rest h hnd (by simp)
    simpa using this
  · intro h
    exact lbLoad_exhausted batch_size [] stream h

/-- Witness for C9 amended at the four-item stream with `batch_size = 2`. -/
theorem C9_amended_refresh_pull_count_witness :
    (∀ m rest, lbRefresh stream4 2 = .ok (m, rest) →
        rest = stream4.drop 2 ∧ 2 ≤ stream4.length ∧ m.length ≤ 2
          ∧ (((stream4.take 2).map Prod.fst).Nodup → m = stream4.take 2))
      ∧ (stream4.length < 2 → lbRefresh stream4 2 = .error .SourceExhausted) :=
  C9_amended_refresh_pull_count stream4 2

theorem choiceIdx_mem {l : List Nat} {d b : Nat} (h : choiceIdx l d = some b) :
    b ∈ l := by
  unfold choiceIdx at h
  split at h
  · simp at h
  · rename_i hne
    injection h with h2
    have hlen : 0 < l.length := by
      cases l with
      | nil => simp at hne
      | cons x xs => simp
    have hmod : d % l.length < l.length := Nat.mod_lt _ hlen
    rw [← h2, List.getD_eq_getElem l 0 hmod]
    exact List.getElem_mem hmod

theorem matchIdx_mem {labels : List String} {yl : String} {same : Bool}
    {b : Nat} (h : b ∈ matchIdx labels yl same) :
    ((labels.getD b "" == yl) == same) = true ∧ b < labels.length := by
  unfold matchIdx at h
  have h2 := List.mem_filter.mp h
  exact ⟨h2.2, List.mem_range.mp h2.1⟩

theorem pairLoop_some : ∀ (ds : List (Nat × Nat)) (labels : List String)
    (same : Bool) (A B : List Nat),
    pairLoop labels same ds = some (A, B) →
      A.length = ds.length ∧ B.length = ds.length
        ∧ List.Forall₂
            (fun a b => (labels.getD a "" = labels.getD b "") ↔ same = true)
            A B := by
  intro ds
  induction ds with
  | nil =>
    intro labels same A B h
    simp only [pairLoop] at h
    injection h with h2
    injection h2 with hA hB
    rw [← hA, ← hB]
    exact ⟨rfl, rfl, List.Forall₂.nil⟩
  | cons p rest ih =>
    obtain ⟨a, d⟩ := p
    intro labels same A B h
    simp only [pairLoop] at h
    split at h
    · simp at h
    · rename_i hN
      split at h
      · simp at h
      · rename_i b hch
        split at h
        · simp at h
        · rename_i ab hrec
          rw [Option.some.injEq, Prod.mk.injEq] at h
          obtain ⟨hA, hB⟩ := h
          obtain ⟨la, lb, hf⟩ := ih labels same ab.1 ab.2 (by rw [hrec])
          have hmem := choiceIdx_mem hch
          have hhead :
              (labels.getD (a % labels.length) ""
                  = labels.getD b "") ↔ same = true := by
            cases same with
            | true =>
              simp only [if_true] at hmem
              have hmem2 := List.mem_of_mem_erase hmem
              obtain ⟨hb, -⟩ := matchIdx_mem hmem2
              simp only [beq_iff_eq] at hb
              exact iff_of_true hb.symm rfl
            | false =>
              have hmem2 : b ∈ matchIdx labels
                  (labels.getD (a % labels.length) "") false := by
                simpa using hmem
              obtain ⟨hb, -⟩ := matchIdx_mem hmem2
              have hne : labels.getD b ""
                  ≠ labels.getD (a % labels.length) "" := by
                simpa using hb
              exact iff_of_false (fun he => hne he.symm) (by simp)
          rw [← hA, ← hB]
          exact ⟨by simp [la], by simp [lb], List.Forall₂.cons hhead hf⟩

theorem equalsArr_forall₂_eq {labels : List String} {A B : List Nat}
    (h : List.Forall₂ (fun a b => labels.getD a "" = labels.getD b "") A B) :
    equalsArr labels A B = List.replicate A.length 1 := by
  induction h with
  | nil => rfl
  | cons hab hrest ih =>
    show (if _ = _ then (1 : ℚ) else 0) :: equalsArr labels _ _ = _
    rw [if_pos hab, ih]
    simp [List.replicate_succ]

theorem equalsArr_forall₂_ne {labels : List String} {A B : List Nat}
    (h : List.Forall₂ (fun a b => labels.getD a "" ≠ labels.getD b "") A B) :
    equalsArr labels A B = List.replicate A.length 0 := by
  induction h with
  | nil => rfl
  | cons hab hrest ih =>
    show (if _ = _ then (1 : ℚ) else 0) :: equalsArr labels _ _ = _
    rw [if_neg hab, ih]
    simp [List.replicate_succ]

theorem equalsArr_append {labels : List String} {A1 B1 A2 B2 : List Nat}
    (h : A1.length = B1.length) :
    equalsArr labels (A1 ++ A2) (B1 ++ B2)
      = equalsArr labels A1 B1 ++ equalsArr labels A2 B2 := by
  unfold equalsArr
  exact List.zipWith_append _ _ _ _ _ h

theorem pairRaw_parts {labels : List String} {batch_size : Nat}
    {d1 d2 : Nat → Nat × Nat} {A B : List Nat}
    (h : pairRaw labels batch_size d1 d2 = some (A, B)) :
    ∃ A1 B1 A2 B2, A = A1 ++ A2 ∧ B = B1 ++ B2
      ∧ A1.length = batch_size / 2 ∧ B1.length = batch_size / 2
      ∧ A2.length = batch_size / 2 ∧ B2.length = batch_size / 2
      ∧ List.Forall₂ (fun a b => labels.getD a "" = labels.getD b "") A1 B1
      ∧ List.Forall₂ (fun a b => labels.getD a "" ≠ labels.getD b "") A2 B2 := by
  unfold pairRaw at h
  split at h
  · simp at h
  · rename_i ab1 h1
    split at h
    · simp at h
    · rename_i ab2 h2
      rw [Option.some.injEq, Prod.mk.injEq] at h
      obtain ⟨hA, hB⟩ := h
      obtain ⟨la1, lb1, hf1⟩ := pairLoop_some _ _ _ _ _ h1
      obtain ⟨la2, lb2, hf2⟩ := pairLoop_some _ _ _ _ _ h2
      refine ⟨ab1.1, ab1.2, ab2.1, ab2.2, hA.symm, hB.symm,
        by simpa using la1, by simpa using lb1,
        by simpa using la2, by simpa using lb2, ?_, ?_⟩
      · exact hf1.imp (fun a b hr => hr.mpr rfl)
      · exact hf2.imp (fun a b hr => by
          intro hc
          exact absurd (hr.mp hc) (by simp))

/-- C10: whenever the pairing pass of `PairedBatch._pair` completes without
failing, `idx_A` and `idx_B` have equal length already before the final
truncation, that common length is exactly `2 * (batch_size // 2)`, the
truncation to `M = min(len(idx_A), len(idx_B))` removes no element, and for
odd `batch_size` the number of pairs is `batch_size - 1`. -/
theorem C10_pair_lockstep_truncation_noop (labels : List String)
    (batch_size : Nat) (d1 d2 : Nat → Nat × Nat) (A B : List Nat)
    (h : pairRaw labels batch_size d1 d2 = some (A, B)) :
    A.length = B.length ∧ A.length = 2 * (batch_size / 2)
      ∧ pairFinal labels batch_size d1 d2 = some (A, B)
      ∧ (batch_size % 2 = 1 → A.length = batch_size - 1) := by
  obtain ⟨A1, B1, A2, B2, hA, hB, l1, l2, l3, l4, -, -⟩ := pairRaw_parts h
  have hlA : A.length = 2 * (batch_size / 2) := by
    rw [hA]
    simp only [List.length_append, l1, l3]
    omega
  have hlB : B.length = 2 * (batch_size / 2) := by
    rw [hB]
    simp only [List.length_append, l2, l4]
    omega
  have hlen : A.length = B.length := by rw [hlA, hlB]
  refine ⟨hlen, hlA, ?_, ?_⟩
  · unfold pairFinal
    rw [h]
    show some (List.take (min A.length B.length) A,
      List.take (min A.length B.length) B) = some (A, B)
    rw [← hlen, min_self, List.take_length, hlen, List.take_length]
  · intro hodd
    omega

/-- Witness for C10 at labels x, x, y, y with `batch_size = 5` and the
identity draw oracle. -/
theorem C10_pair_lockstep_truncation_noop_witness :
    pairRaw labelsXXYY 5 drawId drawId = some ([0, 1, 0, 1], [1, 0, 2, 3])
      ∧ (([0, 1, 0, 1] : List Nat).length = ([1, 0, 2, 3] : List Nat).length
          ∧ ([0, 1, 0, 1] : List Nat).length = 2 * (5 / 2)
          ∧ pairFinal labelsXXYY 5 drawId drawId
              = some ([0, 1, 0, 1], [1, 0, 2, 3])
          ∧ (5 % 2 = 1 → ([0, 1, 0, 1] : List Nat).length = 5 - 1)) :=
  ⟨by decide,
   C10_pair_lockstep_truncation_noop labelsXXYY 5 drawId drawId
     [0, 1, 0, 1] [1, 0, 2, 3] (by decide)⟩

/-- C3: for every PairedBatch whose `refresh()` succeeds (the batch refresh
pulled `batch_size` items and the pairing pass completed) on a batch in which
every label value has at least 2 members and at least 2 distinct label values
exist, `equals()` is 1.0 on every index in `[0, batch_size // 2)` and 0.0 on
every index in `[batch_size // 2, M)` with `M = min(len(idx_A), len(idx_B))` —
computed from actual label equality at the paired indices. -/
theorem C3_equals_first_half_ones_second_half_zeros
    (stream m rest : List (String × Item)) (batch_size : Nat)
    (label_key : String) (labels : List String) (d1 d2 : Nat → Nat × Nat)
    (A B : List Nat)
    (href : lbRefresh stream batch_size = .ok (m, rest))
    (hlab : labels = lbLabels m label_key)
    (hcnt : ∀ l ∈ labels, 2 ≤ labels.count l)
    (hdist : 2 ≤ labels.dedup.length)
    (hpair : pairFinal labels batch_size d1 d2 = some (A, B)) :
    equalsArr labels A B
      = List.replicate (batch_size / 2) 1
        ++ List.replicate (min A.length B.length - batch_size / 2) 0 := by
  unfold pairFinal at hpair
  split at hpair
  · simp at hpair
  · rename_i ab hraw
    rw [Option.some.injEq, Prod.mk.injEq] at hpair
    obtain ⟨hA, hB⟩ := hpair
    obtain ⟨A1, B1, A2, B2, h1, h2, l1, l2, l3, l4, hf1, hf2⟩ :=
      @pairRaw_parts labels batch_size d1 d2 ab.1 ab.2 (by rw [hraw])
    have hab1 : ab.1.length = ab.2.length := by
      rw [h1, h2]
      simp only [List.length_append, l1, l2, l3, l4]
    have htakeA : ab.1.take (min ab.1.length ab.2.length) = ab.1 := by
      rw [← hab1, min_self, List.take_length]
    have htakeB : ab.2.take (min ab.1.length ab.2.length) = ab.2 := by
      rw [hab1, min_self, List.take_length]
    rw [← hA, ← hB, htakeA, htakeB, h1, h2,
      equalsArr_append (by rw [l1, l2]),
      equalsArr_forall₂_eq hf1, equalsArr_forall₂_ne hf2, l1, l3]
    have hmin2 : min (A1 ++ A2).length (B1 ++ B2).length - batch_size / 2
        = batch_size / 2 := by
      simp only [List.length_append, l1, l2, l3, l4, min_self]
      omega
    rw [hmin2]

/-- Witness for C3: the four-item batch labelled x, x, y, y, `batch_size = 4`,
the all-zero draw oracle. -/
theorem C3_equals_first_half_ones_second_half_zeros_witness :
    lbRefresh stream4 4 = .ok (stream4, [])
      ∧ labelsXXYY = lbLabels stream4 "lk"
      ∧ (∀ l ∈ labelsXXYY, 2 ≤ labelsXXYY.count l)
      ∧ 2 ≤ labelsXXYY.dedup.length
      ∧ pairFinal labelsXXYY 4 drawZero drawZero
          = some ([0, 0, 0, 0], [1, 1, 2, 2])
      ∧ equalsArr labelsXXYY [0, 0, 0, 0] [1, 1, 2, 2]
          = List.replicate (4 / 2) 1
            ++ List.replicate
                (min ([0, 0, 0, 0] : List Nat).length
                  ([1, 1, 2, 2] : List Nat).length - 4 / 2) 0 :=
  ⟨by decide, by decide, by decide, by decide, by decide,
   C3_equals_first_half_ones_second_half_zeros stream4 stream4 [] 4 "lk"
     labelsXXYY drawZero drawZero [0, 0, 0, 0] [1, 1, 2, 2] (by decide)
     (by decide) (by decide) (by decide) (by decide)⟩

end Shufflr
